import Mathlib

/-!
Verification of the ferropass core: a shallow embedding of the record store
(`src/models.rs`), the password policy (`src/password.rs`) and the encrypted
storage envelope (`src/encryption.rs`), together with proofs of the frozen
claims about them.

External collaborators (the Argon2 hash, the AES-256-GCM cipher and the serde
JSON serializer) are modelled as explicit parameters gathered in a `Crypto`
structure; the claims that depend on their contracts take those contracts as
pointwise hypotheses.  Randomness (salt, nonce, random draws of the password
generator, the shuffle) is passed in explicitly.  Base64 (the external
`base64` crate, standard alphabet with padding) is embedded concretely so
that decode failures on tampered envelopes are decidable facts.
-/

deriving instance DecidableEq for Except

namespace Ferropass

/-! ## Record store (`src/models.rs`) -/

/-- `Account` from `models.rs`: id, username or email, optional description,
password. -/
structure Account where
  id : String
  username_or_email : String
  description : Option String
  password : String
deriving DecidableEq, Repr

/-- `Database` from `models.rs`: an insertion-ordered vector of accounts. -/
structure Database where
  accounts : List Account
deriving DecidableEq, Repr

/-- `Database::new`. -/
def Database.new : Database := ⟨[]⟩

/-- `Database::add_account`: `self.accounts.push(account)`. -/
def Database.add_account (db : Database) (account : Account) : Database :=
  ⟨db.accounts ++ [account]⟩

/-- `Database::get_accounts`. -/
def Database.get_accounts (db : Database) : List Account :=
  db.accounts

/-- `Database::get_account_by_id`: `self.accounts.iter().find(|acc| acc.get_id() == id)`. -/
def Database.get_account_by_id (db : Database) (id : String) : Option Account :=
  db.accounts.find? (fun acc => acc.id == id)

/-- Applies `f` to the first account whose id matches, as a caller of
`Database::get_account_by_id_mut` does when it mutates through the returned
`&mut Account` (`self.accounts.iter_mut().find(|acc| acc.get_id() == id)`);
a miss leaves the list unchanged. -/
def mutate_first (f : Account → Account) (id : String) : List Account → List Account
  | [] => []
  | a :: rest => if a.id == id then f a :: rest else a :: mutate_first f id rest

/-- `Database::get_account_by_id_mut`, modelled as the state transformer that
mutates the pointed-at account with `f`. -/
def Database.get_account_by_id_mut (db : Database) (id : String) (f : Account → Account) :
    Database :=
  ⟨mutate_first f id db.accounts⟩

/-- `Iterator::position` as used by `Database::remove_account`:
index of the first element satisfying the predicate. -/
def position (p : Account → Bool) : List Account → Option Nat
  | [] => none
  | a :: rest => if p a then some 0 else (position p rest).map (· + 1)

/-- `Database::remove_account`: looks up the position of the first account with
the given id; on a hit removes it (`Vec::remove`) and returns `true`, on a miss
returns `false` and leaves the store untouched. -/
def Database.remove_account (db : Database) (id : String) : Bool × Database :=
  match position (fun acc => acc.id == id) db.accounts with
  | some pos => (true, ⟨db.accounts.eraseIdx pos⟩)
  | none => (false, db)

/-- Outcome of `generate_id` in `models.rs`.  The `panicked` constructor models
a process abort through `.expect`. -/
inductive IdResult where
  | ok : String → IdResult
  | panicked : String → IdResult
deriving DecidableEq, Repr

/-- `generate_id` from `models.rs`.  The environment is explicit:
`timeSinceEpoch` is `SystemTime::now().duration_since(UNIX_EPOCH)` in seconds
(`none` when the system clock is before the Unix epoch, in which case the
source calls `.expect("Time went backwards")`, aborting the process),
`random_number` is the `thread_rng` draw, and `sha256hex` is the external
SHA-256 hex digest.  On success the source keeps the first 8 bytes of the hex
digest (all digest characters are ASCII, so byte slicing is char slicing). -/
def generate_id (timeSinceEpoch : Option Nat) (random_number : Nat)
    (sha256hex : String → String) : IdResult :=
  match timeSinceEpoch with
  | none => IdResult.panicked "Time went backwards"
  | some t => IdResult.ok ((sha256hex (toString t ++ toString random_number)).take 8)

/-! ## Password policy (`src/password.rs`) -/

def SPECIAL_CHARS : String := "!@#$%^&*()-_=+[]\x7b\x7d|;:,.<>?/"

def LOWERCASE_CHARS : String := "abcdefghijklmnopqrstuvwxyz"

def UPPERCASE_CHARS : String := "ABCDEFGHIJKLMNOPQRSTUVWXYZ"

def NUMBERS : String := "0123456789"

/-- `is_password_valid` from `password.rs`.  `password.len()` in Rust is the
UTF-8 byte length; `str::contains(char)` is membership of the char in the
string, and `password.chars()` iterates over the chars. -/
def is_password_valid (password : String) : Bool :=
  if password.utf8ByteSize < 15 then
    false
  else
    (password.data.any fun c => LOWERCASE_CHARS.data.contains c) &&
    (password.data.any fun c => UPPERCASE_CHARS.data.contains c) &&
    (password.data.any fun c => NUMBERS.data.contains c) &&
    (password.data.any fun c => SPECIAL_CHARS.data.contains c)

/-- The filler alphabet of `generate_random_password`:
`format!("{}{}{}{}", SPECIAL_CHARS, LOWERCASE_CHARS, UPPERCASE_CHARS, NUMBERS)`. -/
def all_chars : String := SPECIAL_CHARS ++ LOWERCASE_CHARS ++ UPPERCASE_CHARS ++ NUMBERS

/-- The 16-iteration filler loop of `generate_random_password`: each iteration
indexes `all_chars` with a fresh random index and `.unwrap()`s the result;
`none` models the unwrap panic on an out-of-range index. -/
def pick_chars : List Nat → Option (List Char)
  | [] => some []
  | i :: rest =>
    match all_chars.data.get? i with
    | none => none
    | some c =>
      match pick_chars rest with
      | none => none
      | some cs => some (c :: cs)

/-- `generate_random_password` from `password.rs`, with the random draws
explicit: `si`, `li`, `ui`, `ni` are the `gen_range` draws for the four forced
class characters, `fill` the 16 filler draws, and `shuffle` the permutation
applied by `SliceRandom::shuffle`.  `none` models an `.unwrap()` panic. -/
def generate_random_password (si li ui ni : Nat) (fill : List Nat)
    (shuffle : List Char → List Char) : Option String :=
  match SPECIAL_CHARS.data.get? si with
  | none => none
  | some c1 =>
    match LOWERCASE_CHARS.data.get? li with
    | none => none
    | some c2 =>
      match UPPERCASE_CHARS.data.get? ui with
      | none => none
      | some c3 =>
        match NUMBERS.data.get? ni with
        | none => none
        | some c4 =>
          match pick_chars fill with
          | none => none
          | some filler => some (String.mk (shuffle ([c1, c2, c3, c4] ++ filler)))

/-! ## Base64 (external `base64` crate, `general_purpose::STANDARD`)

RFC 4648 standard alphabet with `=` padding; the decoder rejects characters
outside the alphabet, lengths that are not a multiple of four, misplaced
padding, and non-zero trailing bits in the final quantum (the crate's
`STANDARD` engine decodes in canonical mode).  Bytes are `Nat`s below 256. -/

def b64Alphabet : String :=
  "ABCDEFGHIJKLMNOPQRSTUVWXYZabcdefghijklmnopqrstuvwxyz0123456789+/"

/-- The alphabet character of a six-bit value. -/
def sextetChar (n : Nat) : Char := b64Alphabet.data.getD n 'A'

def sextetValGo : List Char → Nat → Char → Option Nat
  | [], _, _ => none
  | a :: rest, i, c => if a = c then some i else sextetValGo rest (i + 1) c

/-- The six-bit value of an alphabet character, `none` outside the alphabet. -/
def sextetVal (c : Char) : Option Nat := sextetValGo b64Alphabet.data 0 c

/-- Base64 encoding of a byte list, three bytes to four characters, with
padding on the final one- or two-byte quantum. -/
def b64EncodeChunks : List Nat → List Char
  | [] => []
  | [a] => [sextetChar (a / 4), sextetChar (a % 4 * 16), '=', '=']
  | [a, b] => [sextetChar (a / 4), sextetChar (a % 4 * 16 + b / 16), sextetChar (b % 16 * 4), '=']
  | a :: b :: c :: rest =>
    sextetChar (a / 4) :: sextetChar (a % 4 * 16 + b / 16) ::
      sextetChar (b % 16 * 4 + c / 64) :: sextetChar (c % 64) :: b64EncodeChunks rest

def b64Encode (bs : List Nat) : String := String.mk (b64EncodeChunks bs)

/-- Base64 decoding, four characters to three bytes, strict about alphabet,
length, padding placement and canonical (zero) trailing bits. -/
def b64DecodeChunks : List Char → Except String (List Nat)
  | [] => Except.ok []
  | c1 :: c2 :: c3 :: c4 :: rest =>
    match sextetVal c1, sextetVal c2 with
    | some s1, some s2 =>
      if c3 = '=' then
        if c4 = '=' then
          if rest = [] then
            if s2 % 16 = 0 then Except.ok [s1 * 4 + s2 / 16]
            else Except.error "invalid last symbol"
          else Except.error "padding not at end"
        else Except.error "invalid padding"
      else
        match sextetVal c3 with
        | some s3 =>
          if c4 = '=' then
            if rest = [] then
              if s3 % 4 = 0 then Except.ok [s1 * 4 + s2 / 16, s2 % 16 * 16 + s3 / 4]
              else Except.error "invalid last symbol"
            else Except.error "padding not at end"
          else
            match sextetVal c4 with
            | some s4 =>
              match b64DecodeChunks rest with
              | Except.error e => Except.error e
              | Except.ok tail =>
                Except.ok ((s1 * 4 + s2 / 16) :: (s2 % 16 * 16 + s3 / 4) ::
                  (s3 % 4 * 64 + s4) :: tail)
            | none => Except.error "invalid symbol"
        | none => Except.error "invalid symbol"
    | _, _ => Except.error "invalid symbol"
  | _ => Except.error "invalid length"

def b64Decode (s : String) : Except String (List Nat) := b64DecodeChunks s.data

/-! ## Encryption envelope (`src/encryption.rs`)

The external collaborators are explicit parameters: `saltParse` is the
validation performed by `SaltString::from_b64` (on success `salt.as_str()` is
the input string itself); `argon2Err`/`argon2Byte` model
`Argon2::default().hash_password_into` writing into the caller's `[0u8; 32]`
buffer (either an error, or the buffer contents byte by byte — the Rust buffer
type fixes the output length at 32); `aeadEncrypt`/`aeadDecrypt` are
`Aes256Gcm::encrypt`/`decrypt` (the decrypt error value is discarded by the
source, so `Option` suffices); `serializeDb`/`deserializeDb` are
`serde_json::to_string(..).as_bytes()` and `serde_json::from_slice`
(serialization of `Database` cannot fail, deserialization can). -/

structure Crypto where
  saltParse : String → Except String Unit
  argon2Err : String → String → Option String
  argon2Byte : String → String → Nat → Nat
  aeadEncrypt : List Nat → List Nat → List Nat → Except String (List Nat)
  aeadDecrypt : List Nat → List Nat → List Nat → Option (List Nat)
  serializeDb : Database → List Nat
  deserializeDb : List Nat → Except String Database

/-- `derive_key_with_salt` from `encryption.rs`: parse the salt string, then
hash the passkey into a 32-byte buffer with Argon2 keyed by (passkey, salt);
each failure is mapped to the corresponding error string. -/
def derive_key_with_salt (c : Crypto) (passkey salt_str : String) :
    Except String (List Nat) :=
  match c.saltParse salt_str with
  | Except.error e => Except.error ("Error parsing salt: " ++ e)
  | Except.ok _ =>
    match c.argon2Err passkey salt_str with
    | some e => Except.error ("Error deriving key: " ++ e)
    | none => Except.ok ((List.range 32).map (c.argon2Byte passkey salt_str))

/-- `EncryptedData` from `encryption.rs`: the on-disk envelope. -/
structure EncryptedData where
  nonce : String
  salt : String
  data : String
deriving DecidableEq, Repr

/-- `encrypt_and_save_database` from `encryption.rs`, with the fresh
randomness explicit (`salt_string` is the generated salt, `nonce` the 12
random bytes of `generate_nonce`) and the final file write elided: serialize,
derive the key, build the cipher (`new_from_slice` fails exactly when the key
is not 32 bytes), encrypt, and package base64 nonce and ciphertext with the
salt into the envelope. -/
def encrypt_and_save_database (c : Crypto) (database : Database)
    (passkey salt_string : String) (nonce : List Nat) :
    Except String EncryptedData :=
  let json := c.serializeDb database
  match derive_key_with_salt c passkey salt_string with
  | Except.error e => Except.error e
  | Except.ok key =>
    if key.length = 32 then
      match c.aeadEncrypt key nonce json with
      | Except.error e => Except.error ("Error encrypting data: " ++ e)
      | Except.ok ciphertext =>
        Except.ok ⟨b64Encode nonce, salt_string, b64Encode ciphertext⟩
    else Except.error "Error creating cipher: Invalid Length"

/-- Outcome of `load_and_decrypt_database`: a database, a typed error string,
or a process abort (`panicked`, from `Nonce::from_slice`, which asserts that
its argument is exactly 12 bytes). -/
inductive OpenOutcome where
  | ok : Database → OpenOutcome
  | error : String → OpenOutcome
  | panicked : OpenOutcome
deriving DecidableEq, Repr

/-- The single undifferentiated decryption failure message of
`load_and_decrypt_database`. -/
def decryptionErrorMsg : String := "Invalid passkey or corrupted database file"

/-- `load_and_decrypt_database` from `encryption.rs`, with the file read and
the envelope JSON parse elided (the claims quantify over envelopes): decode
the base64 nonce and ciphertext, derive the key from the stored salt, build
the cipher, wrap the nonce (`Nonce::from_slice` aborts unless it got exactly
12 bytes), authenticated-decrypt (any failure becomes the one undifferentiated
message), and deserialize the plaintext. -/
def load_and_decrypt_database (c : Crypto) (encrypted_data : EncryptedData)
    (passkey : String) : OpenOutcome :=
  match b64Decode encrypted_data.nonce with
  | Except.error e => OpenOutcome.error ("Error decoding nonce: " ++ e)
  | Except.ok nonce_bytes =>
    match b64Decode encrypted_data.data with
    | Except.error e => OpenOutcome.error ("Error decoding data: " ++ e)
    | Except.ok ciphertext =>
      match derive_key_with_salt c passkey encrypted_data.salt with
      | Except.error e => OpenOutcome.error e
      | Except.ok key =>
        if key.length = 32 then
          if nonce_bytes.length = 12 then
            match c.aeadDecrypt key nonce_bytes ciphertext with
            | none => OpenOutcome.error decryptionErrorMsg
            | some plaintext =>
              match c.deserializeDb plaintext with
              | Except.error e => OpenOutcome.error ("Error parsing database: " ++ e)
              | Except.ok database => OpenOutcome.ok database
          else OpenOutcome.panicked
        else OpenOutcome.error "Error creating cipher: Invalid Length"

/-! ## Concrete instances used by the closed witnesses

A small computable instantiation of the external collaborators, adequate on
the concrete inputs of the witnesses: a checksum-authenticated toy cipher, a
length-keyed toy key-derivation hash, and a serializer for the empty store. -/

def toyEncrypt (key nonce pt : List Nat) : Except String (List Nat) :=
  Except.ok (pt ++ [(key.sum + nonce.sum + pt.sum) % 256])

def toyDecrypt (key nonce ct : List Nat) : Option (List Nat) :=
  match ct.getLast? with
  | none => none
  | some tag =>
    let front := ct.dropLast
    if tag = (key.sum + nonce.sum + front.sum) % 256 then some front else none

def toySerialize (db : Database) : List Nat := [db.accounts.length % 256]

def toyDeserialize (bs : List Nat) : Except String Database :=
  if bs = [0] then Except.ok ⟨[]⟩ else Except.error "unexpected data"

def toyCrypto : Crypto where
  saltParse := fun s => if s.length < 4 then Except.error "salt invalid" else Except.ok ()
  argon2Err := fun _ _ => none
  argon2Byte := fun p s i => (p.utf8ByteSize + s.utf8ByteSize + i) % 256
  aeadEncrypt := toyEncrypt
  aeadDecrypt := toyDecrypt
  serializeDb := toySerialize
  deserializeDb := toyDeserialize

/-- A single-byte modification of a stored envelope field: the character at
position `i` is replaced by `ch`. -/
def flipAt (s : String) (i : Nat) (ch : Char) : String := ⟨s.data.set i ch⟩

/-! ## Helper lemmas: base64 -/

theorem sextetVal_sextetChar : ∀ n < 64, sextetVal (sextetChar n) = some n := by decide

theorem sextetChar_ne_pad : ∀ n < 64, ¬(sextetChar n = '=') := by decide

theorem b64DecodeChunks_encode : ∀ bs : List Nat, (∀ b ∈ bs, b < 256) →
    b64DecodeChunks (b64EncodeChunks bs) = Except.ok bs := by
  intro bs
  induction bs using b64EncodeChunks.induct with
  | case1 =>
    intro _
    rfl
  | case2 a =>
    intro h
    have ha : a < 256 := h a (by simp)
    have h1 : a / 4 < 64 := by omega
    have h2 : a % 4 * 16 < 64 := by omega
    simp only [b64EncodeChunks, b64DecodeChunks, sextetVal_sextetChar _ h1,
      sextetVal_sextetChar _ h2]
    have h3 : a % 4 * 16 % 16 = 0 := by omega
    simp [h3]
    omega
  | case3 a b =>
    intro h
    have ha : a < 256 := h a (by simp)
    have hb : b < 256 := h b (by simp)
    have h1 : a / 4 < 64 := by omega
    have h2 : a % 4 * 16 + b / 16 < 64 := by omega
    have h3 : b % 16 * 4 < 64 := by omega
    simp only [b64EncodeChunks, b64DecodeChunks, sextetVal_sextetChar _ h1,
      sextetVal_sextetChar _ h2, sextetVal_sextetChar _ h3]
    rw [if_neg (sextetChar_ne_pad _ h3)]
    have h4 : b % 16 * 4 % 4 = 0 := by omega
    simp [h4]
    constructor
    · omega
    · omega
  | case4 a b c rest ih =>
    intro h
    have ha : a < 256 := h a (by simp)
    have hb : b < 256 := h b (by simp)
    have hc : c < 256 := h c (by simp)
    have hrest : ∀ x ∈ rest, x < 256 := fun x hx => h x (by simp [hx])
    have h1 : a / 4 < 64 := by omega
    have h2 : a % 4 * 16 + b / 16 < 64 := by omega
    have h3 : b % 16 * 4 + c / 64 < 64 := by omega
    have h4 : c % 64 < 64 := by omega
    simp only [b64EncodeChunks, b64DecodeChunks, sextetVal_sextetChar _ h1,
      sextetVal_sextetChar _ h2, sextetVal_sextetChar _ h3, sextetVal_sextetChar _ h4]
    rw [if_neg (sextetChar_ne_pad _ h3), if_neg (sextetChar_ne_pad _ h4)]
    rw [ih hrest]
    simp only [Except.ok.injEq, List.cons.injEq]
    refine ⟨by omega, by omega, by omega, trivial⟩

/-- Decoding inverts encoding on byte lists. -/
theorem b64_decode_encode (bs : List Nat) (h : ∀ b ∈ bs, b < 256) :
    b64Decode (b64Encode bs) = Except.ok bs :=
  b64DecodeChunks_encode bs h

/-- Encoding is injective on byte lists. -/
theorem b64Encode_inj (xs ys : List Nat) (hx : ∀ b ∈ xs, b < 256)
    (hy : ∀ b ∈ ys, b < 256) (h : b64Encode xs = b64Encode ys) : xs = ys := by
  have h1 := b64_decode_encode xs hx
  have h2 := b64_decode_encode ys hy
  rw [h, h2] at h1
  exact (Except.ok.inj h1).symm

/-! ## Helper lemmas: key derivation and the sealed envelope -/

/-- A successfully derived key is exactly 32 bytes: the source hashes into a
`[0u8; 32]` buffer. -/
theorem derive_key_length (c : Crypto) (p s : String) (key : List Nat)
    (h : derive_key_with_salt c p s = Except.ok key) : key.length = 32 := by
  unfold derive_key_with_salt at h
  split at h
  · exact absurd h (by simp)
  · split at h
    · exact absurd h (by simp)
    · simp only [Except.ok.injEq] at h
      subst h
      simp

/-- The shape of a successful seal: the envelope holds the base64 nonce, the
salt string, and the base64 ciphertext. -/
theorem seal_shape (c : Crypto) (S : Database) (P salt : String) (nonce key ct : List Nat)
    (hkey : derive_key_with_salt c P salt = Except.ok key)
    (henc : c.aeadEncrypt key nonce (c.serializeDb S) = Except.ok ct) :
    encrypt_and_save_database c S P salt nonce =
      Except.ok ⟨b64Encode nonce, salt, b64Encode ct⟩ := by
  have hkl := derive_key_length c P salt key hkey
  unfold encrypt_and_save_database
  rw [hkey]
  simp [hkl, henc]

/-- Opening a sealed envelope under the sealing passphrase succeeds, given the
pointwise collaborator contracts (shared workhorse for the round-trip and
non-determinism claims). -/
theorem load_of_sealed (c : Crypto) (S : Database) (P salt : String)
    (nonce key ct : List Nat) (env : EncryptedData)
    (hnb : ∀ b ∈ nonce, b < 256) (hn12 : nonce.length = 12)
    (hkey : derive_key_with_salt c P salt = Except.ok key)
    (henc : c.aeadEncrypt key nonce (c.serializeDb S) = Except.ok ct)
    (hctb : ∀ b ∈ ct, b < 256)
    (hdec : c.aeadDecrypt key nonce ct = some (c.serializeDb S))
    (hser : c.deserializeDb (c.serializeDb S) = Except.ok S)
    (henv : encrypt_and_save_database c S P salt nonce = Except.ok env) :
    load_and_decrypt_database c env P = OpenOutcome.ok S := by
  have hkl := derive_key_length c P salt key hkey
  have hshape := seal_shape c S P salt nonce key ct hkey henc
  rw [henv] at hshape
  have henveq : env = ⟨b64Encode nonce, salt, b64Encode ct⟩ := Except.ok.inj hshape
  subst henveq
  unfold load_and_decrypt_database
  rw [show (⟨b64Encode nonce, salt, b64Encode ct⟩ : EncryptedData).nonce = b64Encode nonce
      from rfl,
    show (⟨b64Encode nonce, salt, b64Encode ct⟩ : EncryptedData).data = b64Encode ct from rfl,
    show (⟨b64Encode nonce, salt, b64Encode ct⟩ : EncryptedData).salt = salt from rfl,
    b64_decode_encode nonce hnb, b64_decode_encode ct hctb, hkey]
  simp [hkl, hn12, hdec, hser]

/-! ## Claims -/

/-- Claim C1: sealing a store `S` under passphrase `P` and opening the result
under the same `P` succeeds and returns a store structurally equal to `S` —
every field of every account, the presence or absence of each optional
description, and the insertion order (equality of `Database` values is exactly
that).  The external contracts enter as pointwise hypotheses: the AEAD
decrypts its own encryption under the same key and nonce, the serializer
round-trips on `S`, derivation succeeds (the salt generated by
`SaltString::generate` is always well-formed), and nonce and ciphertext are
byte lists (12 bytes of `u8` from `generate_nonce`, `u8`s from the cipher). -/
theorem seal_open_roundtrip (c : Crypto) (S : Database) (P salt : String)
    (nonce key ct : List Nat) (env : EncryptedData)
    (hnb : ∀ b ∈ nonce, b < 256) (hn12 : nonce.length = 12)
    (hkey : derive_key_with_salt c P salt = Except.ok key)
    (henc : c.aeadEncrypt key nonce (c.serializeDb S) = Except.ok ct)
    (hctb : ∀ b ∈ ct, b < 256)
    (hdec : c.aeadDecrypt key nonce ct = some (c.serializeDb S))
    (hser : c.deserializeDb (c.serializeDb S) = Except.ok S)
    (henv : encrypt_and_save_database c S P salt nonce = Except.ok env) :
    load_and_decrypt_database c env P = OpenOutcome.ok S :=
  load_of_sealed c S P salt nonce key ct env hnb hn12 hkey henc hctb hdec hser henv

/-- Closed instance of C1 at the toy collaborators: sealing the empty store
under "pw" with salt "NaCl" and the zero nonce, then opening it, yields the
empty store. -/
theorem seal_open_roundtrip_witness :
    load_and_decrypt_database toyCrypto ⟨"AAAAAAAAAAAAAAAA", "NaCl", "ALA="⟩ "pw" =
      OpenOutcome.ok ⟨[]⟩ :=
  seal_open_roundtrip toyCrypto ⟨[]⟩ "pw" "NaCl" (List.replicate 12 0)
    ((List.range 32).map fun i => 6 + i) [0, 176] ⟨"AAAAAAAAAAAAAAAA", "NaCl", "ALA="⟩
    (by decide) (by decide) (by decide) (by decide) (by decide) (by decide) (by decide)
    (by decide)

/-- Claim C2: opening a sealed envelope under a different passphrase `P2`
fails, with the single undifferentiated decryption error — it never returns a
store.  The idealized-cipher contract enters pointwise: derivation under `P2`
yields a key under which authenticated decryption of the sealed ciphertext
fails (authentication forgery under a wrong key is excluded). -/
theorem wrong_key_rejected (c : Crypto) (S : Database) (P P2 salt : String)
    (nonce key key2 ct : List Nat) (env : EncryptedData)
    (hPP : P ≠ P2)
    (hnb : ∀ b ∈ nonce, b < 256) (hn12 : nonce.length = 12)
    (hkey : derive_key_with_salt c P salt = Except.ok key)
    (henc : c.aeadEncrypt key nonce (c.serializeDb S) = Except.ok ct)
    (hctb : ∀ b ∈ ct, b < 256)
    (henv : encrypt_and_save_database c S P salt nonce = Except.ok env)
    (hkey2 : derive_key_with_salt c P2 salt = Except.ok key2)
    (hauth : c.aeadDecrypt key2 nonce ct = none) :
    load_and_decrypt_database c env P2 = OpenOutcome.error decryptionErrorMsg := by
  have hkl2 := derive_key_length c P2 salt key2 hkey2
  have hshape := seal_shape c S P salt nonce key ct hkey henc
  rw [henv] at hshape
  have henveq : env = ⟨b64Encode nonce, salt, b64Encode ct⟩ := Except.ok.inj hshape
  subst henveq
  unfold load_and_decrypt_database
  rw [show (⟨b64Encode nonce, salt, b64Encode ct⟩ : EncryptedData).nonce = b64Encode nonce
      from rfl,
    show (⟨b64Encode nonce, salt, b64Encode ct⟩ : EncryptedData).data = b64Encode ct from rfl,
    show (⟨b64Encode nonce, salt, b64Encode ct⟩ : EncryptedData).salt = salt from rfl,
    b64_decode_encode nonce hnb, b64_decode_encode ct hctb, hkey2]
  simp [hkl2, hn12, hauth]

/-- Closed instance of C2: the envelope sealed under "pw" is rejected with the
undifferentiated error when opened under "pwd". -/
theorem wrong_key_rejected_witness :
    load_and_decrypt_database toyCrypto ⟨"AAAAAAAAAAAAAAAA", "NaCl", "ALA="⟩ "pwd" =
      OpenOutcome.error decryptionErrorMsg :=
  wrong_key_rejected toyCrypto ⟨[]⟩ "pw" "pwd" "NaCl" (List.replicate 12 0)
    ((List.range 32).map fun i => 6 + i) ((List.range 32).map fun i => 7 + i) [0, 176]
    ⟨"AAAAAAAAAAAAAAAA", "NaCl", "ALA="⟩
    (by decide) (by decide) (by decide) (by decide) (by decide) (by decide) (by decide)
    (by decide) (by decide)

/-- Claim C3, counterexample: a single-byte modification of the stored
(base64) nonce field of a sealed envelope need not fail with the
undifferentiated decryption error.  Sealing the empty store yields nonce field
"AAAAAAAAAAAAAAAA"; replacing its first byte with the non-alphabet byte
produces an envelope whose open fails at base64 decoding, with a decode error
distinct from the decryption error. -/
theorem tamper_counterexample :
    encrypt_and_save_database toyCrypto ⟨[]⟩ "pw" "NaCl" (List.replicate 12 0) =
      Except.ok ⟨"AAAAAAAAAAAAAAAA", "NaCl", "ALA="⟩ ∧
    flipAt "AAAAAAAAAAAAAAAA" 0 '!' = "!AAAAAAAAAAAAAAA" ∧
    load_and_decrypt_database toyCrypto ⟨"!AAAAAAAAAAAAAAA", "NaCl", "ALA="⟩ "pw" =
      OpenOutcome.error ("Error decoding nonce: " ++ "invalid symbol") ∧
    ("Error decoding nonce: " ++ "invalid symbol") ≠ decryptionErrorMsg := by
  refine ⟨by decide, by decide, by decide, by decide⟩

/-- Claim C3, amended: for an envelope produced by seal and a modified
envelope with the same salt, (1) any modification under which the nonce and
ciphertext fields still base64-decode, the nonce to its original 12-byte
length, but decode to a pair different from the sealed one, makes open fail
with the undifferentiated decryption error (given the AEAD authentication
contract at the modified pair); (2) a modification that makes the nonce field
undecodable fails with the nonce decode error instead; (3) likewise for the
ciphertext field.  In no case does open return a store. -/
theorem tamper_detected (c : Crypto) (S : Database) (P salt : String)
    (nonce key ct : List Nat) (env env' : EncryptedData) (nonce' ct' : List Nat)
    (hnb : ∀ b ∈ nonce, b < 256) (hn12 : nonce.length = 12)
    (hkey : derive_key_with_salt c P salt = Except.ok key)
    (henc : c.aeadEncrypt key nonce (c.serializeDb S) = Except.ok ct)
    (hctb : ∀ b ∈ ct, b < 256)
    (henv : encrypt_and_save_database c S P salt nonce = Except.ok env)
    (hsalt : env'.salt = env.salt) :
    ((b64Decode env'.nonce = Except.ok nonce') → (b64Decode env'.data = Except.ok ct') →
      nonce'.length = 12 → (nonce', ct') ≠ (nonce, ct) →
      c.aeadDecrypt key nonce' ct' = none →
      load_and_decrypt_database c env' P = OpenOutcome.error decryptionErrorMsg) ∧
    (∀ e, b64Decode env'.nonce = Except.error e →
      load_and_decrypt_database c env' P =
        OpenOutcome.error ("Error decoding nonce: " ++ e)) ∧
    (∀ e, (∃ nb, b64Decode env'.nonce = Except.ok nb) →
      b64Decode env'.data = Except.error e →
      load_and_decrypt_database c env' P =
        OpenOutcome.error ("Error decoding data: " ++ e)) := by
  have hkl := derive_key_length c P salt key hkey
  have hshape := seal_shape c S P salt nonce key ct hkey henc
  rw [henv] at hshape
  have henveq : env = ⟨b64Encode nonce, salt, b64Encode ct⟩ := Except.ok.inj hshape
  have hs : env'.salt = salt := by rw [hsalt, henveq]
  refine ⟨?_, ?_, ?_⟩
  · intro hdn hdc hlen hne hauth
    unfold load_and_decrypt_database
    rw [hdn, hdc, hs, hkey]
    simp [hkl, hlen, hauth]
  · intro e hdn
    unfold load_and_decrypt_database
    rw [hdn]
  · intro e hnb' hdc
    obtain ⟨nb, hob⟩ := hnb'
    unfold load_and_decrypt_database
    rw [hob, hdc]

/-- Closed instance of the amended C3: changing one byte of the sealed nonce
field from 'A' to 'E' (still valid base64, decoding to a different 12-byte
nonce) makes open fail with the undifferentiated decryption error. -/
theorem tamper_detected_witness :
    load_and_decrypt_database toyCrypto ⟨"AEAAAAAAAAAAAAAA", "NaCl", "ALA="⟩ "pw" =
      OpenOutcome.error decryptionErrorMsg :=
  (tamper_detected toyCrypto ⟨[]⟩ "pw" "NaCl" (List.replicate 12 0)
    ((List.range 32).map fun i => 6 + i) [0, 176]
    ⟨"AAAAAAAAAAAAAAAA", "NaCl", "ALA="⟩ ⟨"AEAAAAAAAAAAAAAA", "NaCl", "ALA="⟩
    [0, 64, 0, 0, 0, 0, 0, 0, 0, 0, 0, 0] [0, 176]
    (by decide) (by decide) (by decide) (by decide) (by decide) (by decide)
    (by decide)).1 (by decide) (by decide) (by decide) (by decide) (by decide)

/-- Claim C4: two seals of the same store under the same passphrase with
independent fresh randomness (modelled as distinct salt draws and distinct
nonce draws — collisions of the CSPRNG outputs are excluded) produce envelopes
with different salt, nonce and ciphertext fields, and both open back to `S`.
Distinctness of the stored nonce and ciphertext text follows from injectivity
of base64; distinctness of the raw ciphertexts under distinct (key, nonce)
pairs is the idealized-cipher contract, taken pointwise (`hct`). -/
theorem seal_nondeterministic (c : Crypto) (S : Database) (P : String)
    (salt1 salt2 : String) (n1 n2 key1 key2 ct1 ct2 : List Nat)
    (env1 env2 : EncryptedData)
    (hsalt : salt1 ≠ salt2) (hnonce : n1 ≠ n2)
    (hnb1 : ∀ b ∈ n1, b < 256) (hnb2 : ∀ b ∈ n2, b < 256)
    (hn12a : n1.length = 12) (hn12b : n2.length = 12)
    (hkey1 : derive_key_with_salt c P salt1 = Except.ok key1)
    (henc1 : c.aeadEncrypt key1 n1 (c.serializeDb S) = Except.ok ct1)
    (hctb1 : ∀ b ∈ ct1, b < 256)
    (henv1 : encrypt_and_save_database c S P salt1 n1 = Except.ok env1)
    (hkey2 : derive_key_with_salt c P salt2 = Except.ok key2)
    (henc2 : c.aeadEncrypt key2 n2 (c.serializeDb S) = Except.ok ct2)
    (hctb2 : ∀ b ∈ ct2, b < 256)
    (henv2 : encrypt_and_save_database c S P salt2 n2 = Except.ok env2)
    (hct : ct1 ≠ ct2)
    (hdec1 : c.aeadDecrypt key1 n1 ct1 = some (c.serializeDb S))
    (hdec2 : c.aeadDecrypt key2 n2 ct2 = some (c.serializeDb S))
    (hser : c.deserializeDb (c.serializeDb S) = Except.ok S) :
    env1.salt ≠ env2.salt ∧ env1.nonce ≠ env2.nonce ∧ env1.data ≠ env2.data ∧
    load_and_decrypt_database c env1 P = OpenOutcome.ok S ∧
    load_and_decrypt_database c env2 P = OpenOutcome.ok S := by
  have hshape1 := seal_shape c S P salt1 n1 key1 ct1 hkey1 henc1
  rw [henv1] at hshape1
  have henveq1 : env1 = ⟨b64Encode n1, salt1, b64Encode ct1⟩ := Except.ok.inj hshape1
  have hshape2 := seal_shape c S P salt2 n2 key2 ct2 hkey2 henc2
  rw [henv2] at hshape2
  have henveq2 : env2 = ⟨b64Encode n2, salt2, b64Encode ct2⟩ := Except.ok.inj hshape2
  refine ⟨?_, ?_, ?_, ?_, ?_⟩
  · rw [henveq1, henveq2]
    exact hsalt
  · rw [henveq1, henveq2]
    intro h
    exact hnonce (b64Encode_inj n1 n2 hnb1 hnb2 h)
  · rw [henveq1, henveq2]
    intro h
    exact hct (b64Encode_inj ct1 ct2 hctb1 hctb2 h)
  · exact load_of_sealed c S P salt1 n1 key1 ct1 env1 hnb1 hn12a hkey1 henc1 hctb1
      hdec1 hser henv1
  · exact load_of_sealed c S P salt2 n2 key2 ct2 env2 hnb2 hn12b hkey2 henc2 hctb2
      hdec2 hser henv2

/-- Closed instance of C4: two toy seals of the empty store with distinct
salts and nonces give envelopes differing in all three fields, both opening
back to the empty store. -/
theorem seal_nondeterministic_witness :
    (⟨"AAAAAAAAAAAAAAAA", "NaCl", "ALA="⟩ : EncryptedData).salt ≠
      (⟨"AQAAAAAAAAAAAAAA", "SALT", "ALE="⟩ : EncryptedData).salt ∧
    (⟨"AAAAAAAAAAAAAAAA", "NaCl", "ALA="⟩ : EncryptedData).nonce ≠
      (⟨"AQAAAAAAAAAAAAAA", "SALT", "ALE="⟩ : EncryptedData).nonce ∧
    (⟨"AAAAAAAAAAAAAAAA", "NaCl", "ALA="⟩ : EncryptedData).data ≠
      (⟨"AQAAAAAAAAAAAAAA", "SALT", "ALE="⟩ : EncryptedData).data ∧
    load_and_decrypt_database toyCrypto ⟨"AAAAAAAAAAAAAAAA", "NaCl", "ALA="⟩ "pw" =
      OpenOutcome.ok ⟨[]⟩ ∧
    load_and_decrypt_database toyCrypto ⟨"AQAAAAAAAAAAAAAA", "SALT", "ALE="⟩ "pw" =
      OpenOutcome.ok ⟨[]⟩ :=
  seal_nondeterministic toyCrypto ⟨[]⟩ "pw" "NaCl" "SALT"
    (List.replicate 12 0) (1 :: List.replicate 11 0)
    ((List.range 32).map fun i => 6 + i) ((List.range 32).map fun i => 6 + i)
    [0, 176] [0, 177]
    ⟨"AAAAAAAAAAAAAAAA", "NaCl", "ALA="⟩ ⟨"AQAAAAAAAAAAAAAA", "SALT", "ALE="⟩
    (by decide) (by decide) (by decide) (by decide) (by decide) (by decide)
    (by decide) (by decide) (by decide) (by decide) (by decide) (by decide)
    (by decide) (by decide) (by decide) (by decide) (by decide) (by decide)

/-- Claim C5: key derivation is deterministic in the (passphrase, salt) pair,
returns exactly 32 bytes on success (the `[0u8; 32]` buffer of the source
fixes the length), fails with the salt-parse error when the salt is malformed
and with the key-derivation error when the Argon2 backend errors, and returns
no key on either failure. -/
theorem derive_key_contract (c : Crypto) (p s : String) :
    (∀ p2 s2, p2 = p → s2 = s →
      derive_key_with_salt c p2 s2 = derive_key_with_salt c p s) ∧
    (∀ key, derive_key_with_salt c p s = Except.ok key → key.length = 32) ∧
    (∀ e, c.saltParse s = Except.error e →
      derive_key_with_salt c p s = Except.error ("Error parsing salt: " ++ e)) ∧
    (∀ e, c.saltParse s = Except.ok () → c.argon2Err p s = some e →
      derive_key_with_salt c p s = Except.error ("Error deriving key: " ++ e)) := by
  refine ⟨?_, ?_, ?_, ?_⟩
  · intro p2 s2 hp hs
    rw [hp, hs]
  · intro key h
    exact derive_key_length c p s key h
  · intro e h
    unfold derive_key_with_salt
    rw [h]
  · intro e h1 h2
    unfold derive_key_with_salt
    rw [h1, h2]

/-- Closed instance of C5: a malformed (too short) salt makes derivation fail
with the salt-parse error. -/
theorem derive_key_contract_witness :
    derive_key_with_salt toyCrypto "pw" "x" =
      Except.error ("Error parsing salt: " ++ "salt invalid") :=
  (derive_key_contract toyCrypto "pw" "x").2.2.1 "salt invalid" (by decide)

/-- Claim C6, counterexample: two core operations can abort the process.
`generate_id` panics through `.expect("Time went backwards")` when the system
clock is before the Unix epoch, and open panics in `Nonce::from_slice` when
the stored nonce field decodes to other than 12 bytes (here: "AAAA", three
zero bytes), instead of returning a typed result. -/
theorem core_panic_counterexample :
    generate_id none 0 (fun _ => "") = IdResult.panicked "Time went backwards" ∧
    load_and_decrypt_database toyCrypto ⟨"AAAA", "NaCl", "AA=="⟩ "pw" =
      OpenOutcome.panicked := by
  refine ⟨rfl, by decide⟩

/-- Membership in the filler alphabet at any index below 89 (its length). -/
theorem pick_chars_ok : ∀ fill : List Nat, (∀ i ∈ fill, i < 89) →
    ∃ cs, pick_chars fill = some cs ∧ cs.length = fill.length ∧
      ∀ ch ∈ cs, ch ∈ all_chars.data := by
  intro fill
  induction fill with
  | nil =>
    intro _
    exact ⟨[], rfl, rfl, by simp⟩
  | cons i rest ih =>
    intro h
    have hi : i < all_chars.data.length := by
      have h1 : i < 89 := h i (by simp)
      have h2 : all_chars.data.length = 89 := by decide
      omega
    obtain ⟨cs, hcs, hlen, hmem⟩ := ih (fun j hj => h j (by simp [hj]))
    refine ⟨all_chars.data.get ⟨i, hi⟩ :: cs, ?_, by simp [hlen], ?_⟩
    · unfold pick_chars
      rw [List.get?_eq_get hi, hcs]
    · intro ch hch
      rcases List.mem_cons.mp hch with hceq | hmem2
      · rw [hceq]
        exact List.get_mem _ _ _
      · exact hmem ch hmem2

/-- Claim C6, amended: no core operation panics for any input, with two
exceptions visible in the source: (1) `generate_id` aborts exactly when the
system clock reads before the Unix epoch; (2) open aborts only when the
stored nonce field decodes to a byte length other than 12.  In particular the
password generator's `.unwrap()`s never fire for in-range random draws, and
every other failure is a typed result. -/
theorem panic_surface :
    (∀ (tr : Option Nat) (r : Nat) (h : String → String),
      generate_id tr r h = IdResult.panicked "Time went backwards" ↔ tr = none) ∧
    (∀ (t r : Nat) (h : String → String), ∃ s, generate_id (some t) r h = IdResult.ok s) ∧
    (∀ (c : Crypto) (env : EncryptedData) (p : String),
      load_and_decrypt_database c env p = OpenOutcome.panicked →
        ∃ nb, b64Decode env.nonce = Except.ok nb ∧ nb.length ≠ 12) ∧
    (∀ (si li ui ni : Nat) (fill : List Nat) (shuffle : List Char → List Char),
      si < 27 → li < 26 → ui < 26 → ni < 10 → (∀ i ∈ fill, i < 89) →
      (generate_random_password si li ui ni fill shuffle).isSome = true) := by
  refine ⟨?_, ?_, ?_, ?_⟩
  · intro tr r h
    cases tr with
    | none => simp [generate_id]
    | some t => simp [generate_id]
  · intro t r h
    exact ⟨_, rfl⟩
  · intro c env p h
    unfold load_and_decrypt_database at h
    split at h
    · exact absurd h (by simp)
    next nonce_bytes hnb =>
      split at h
      · exact absurd h (by simp)
      next ct hct =>
        split at h
        · exact absurd h (by simp)
        next key hkey =>
          split at h
          · split at h
            · split at h
              · exact absurd h (by simp)
              next plaintext hpt =>
                split at h
                · exact absurd h (by simp)
                · exact absurd h (by simp)
            next hlen =>
              exact ⟨nonce_bytes, hnb, hlen⟩
          · exact absurd h (by simp)
  · intro si li ui ni fill shuffle hsi hli hui hni hfill
    have h1 : si < SPECIAL_CHARS.data.length := by
      have : SPECIAL_CHARS.data.length = 27 := by decide
      omega
    have h2 : li < LOWERCASE_CHARS.data.length := by
      have : LOWERCASE_CHARS.data.length = 26 := by decide
      omega
    have h3 : ui < UPPERCASE_CHARS.data.length := by
      have : UPPERCASE_CHARS.data.length = 26 := by decide
      omega
    have h4 : ni < NUMBERS.data.length := by
      have : NUMBERS.data.length = 10 := by decide
      omega
    obtain ⟨cs, hcs, -, -⟩ := pick_chars_ok fill hfill
    unfold generate_random_password
    rw [List.get?_eq_get h1, List.get?_eq_get h2, List.get?_eq_get h3,
      List.get?_eq_get h4, hcs]
    rfl

/-- Closed instance of the amended C6: a pre-epoch clock is exactly the
condition under which `generate_id` aborts. -/
theorem panic_surface_witness :
    generate_id none 3 (fun s => s) = IdResult.panicked "Time went backwards" :=
  (panic_surface.1 none 3 (fun s => s)).mpr rfl

/-! ## Helper lemmas: character classes and string sizes -/

theorem contains_iff_mem {c : Char} {l : List Char} : l.contains c = true ↔ c ∈ l :=
  List.elem_iff

theorem mem_lower_iff (c : Char) :
    c ∈ LOWERCASE_CHARS.data ↔ 97 ≤ c.toNat ∧ c.toNat ≤ 122 := by
  constructor
  · have hall : ∀ x ∈ LOWERCASE_CHARS.data, 97 ≤ x.toNat ∧ x.toNat ≤ 122 := by decide
    exact fun h => hall c h
  · intro h
    obtain ⟨h1, h2⟩ := h
    rw [← Char.ofNat_toNat c]
    generalize hgen : c.toNat = n at h1 h2
    interval_cases n <;> decide

theorem mem_upper_iff (c : Char) :
    c ∈ UPPERCASE_CHARS.data ↔ 65 ≤ c.toNat ∧ c.toNat ≤ 90 := by
  constructor
  · have hall : ∀ x ∈ UPPERCASE_CHARS.data, 65 ≤ x.toNat ∧ x.toNat ≤ 90 := by decide
    exact fun h => hall c h
  · intro h
    obtain ⟨h1, h2⟩ := h
    rw [← Char.ofNat_toNat c]
    generalize hgen : c.toNat = n at h1 h2
    interval_cases n <;> decide

theorem mem_digit_iff (c : Char) :
    c ∈ NUMBERS.data ↔ 48 ≤ c.toNat ∧ c.toNat ≤ 57 := by
  constructor
  · have hall : ∀ x ∈ NUMBERS.data, 48 ≤ x.toNat ∧ x.toNat ≤ 57 := by decide
    exact fun h => hall c h
  · intro h
    obtain ⟨h1, h2⟩ := h
    rw [← Char.ofNat_toNat c]
    generalize hgen : c.toNat = n at h1 h2
    interval_cases n <;> decide

theorem length_le_utf8ByteSize : ∀ l : List Char, l.length ≤ String.utf8ByteSize ⟨l⟩ := by
  intro l
  show l.length ≤ String.utf8ByteSize.go l
  induction l with
  | nil => exact Nat.le_refl 0
  | cons c cs ih =>
    show cs.length + 1 ≤ String.utf8ByteSize.go cs + c.utf8Size
    have := Char.utf8Size_pos c
    omega

/-- Claim C7: `is_password_valid s` holds exactly when `s` is at least 15
bytes long (Rust `str::len` is UTF-8 byte length) and contains at least one
lowercase ASCII letter, one uppercase ASCII letter, one decimal digit, and one
character of the fixed special set; in particular every string of length 14 or
less is rejected, and (by the equivalence) so is every string missing one of
the four classes. -/
theorem is_password_valid_iff (s : String) :
    (is_password_valid s = true ↔
      15 ≤ s.utf8ByteSize ∧
      (∃ c ∈ s.data, 97 ≤ c.toNat ∧ c.toNat ≤ 122) ∧
      (∃ c ∈ s.data, 65 ≤ c.toNat ∧ c.toNat ≤ 90) ∧
      (∃ c ∈ s.data, 48 ≤ c.toNat ∧ c.toNat ≤ 57) ∧
      (∃ c ∈ s.data, c ∈ SPECIAL_CHARS.data)) ∧
    (s.utf8ByteSize ≤ 14 → is_password_valid s = false) := by
  constructor
  · unfold is_password_valid
    by_cases h : s.utf8ByteSize < 15
    · rw [if_pos h]
      constructor
      · intro hcon
        exact absurd hcon (by decide)
      · rintro ⟨h15, -⟩
        exact absurd h15 (by omega)
    · rw [if_neg h]
      simp only [Bool.and_eq_true, List.any_eq_true, contains_iff_mem, mem_lower_iff,
        mem_upper_iff, mem_digit_iff]
      constructor
      · rintro ⟨⟨⟨hA, hB⟩, hC⟩, hD⟩
        exact ⟨by omega, hA, hB, hC, hD⟩
      · rintro ⟨-, hA, hB, hC, hD⟩
        exact ⟨⟨⟨hA, hB⟩, hC⟩, hD⟩
  · intro h14
    unfold is_password_valid
    rw [if_pos (by omega)]

/-- Closed instance of C7: a 16-byte password with all four classes is
accepted. -/
theorem is_password_valid_iff_witness :
    is_password_valid "aB3!aB3!aB3!aB3!" = true :=
  ((is_password_valid_iff "aB3!aB3!aB3!aB3!").1).mpr (by decide)

/-- Claim C8: for every possible random choice (in-range class draws `si`,
`li`, `ui`, `ni`, in-range filler draws `fill` of the 16-iteration loop, and
any permutation `shuffle`, which is what `SliceRandom::shuffle` applies), the
generator succeeds and its output satisfies `is_password_valid`: one character
of each required class is forced, the filler comes from the union alphabet,
and the 20-character result is at least 15 bytes. -/
theorem generate_random_password_valid (si li ui ni : Nat) (fill : List Nat)
    (shuffle : List Char → List Char)
    (hsi : si < 27) (hli : li < 26) (hui : ui < 26) (hni : ni < 10)
    (hfill : ∀ i ∈ fill, i < 89) (hflen : fill.length = 16)
    (hperm : ∀ l, List.Perm (shuffle l) l) :
    ∃ s, generate_random_password si li ui ni fill shuffle = some s ∧
      is_password_valid s = true := by
  have h1 : si < SPECIAL_CHARS.data.length := by
    have : SPECIAL_CHARS.data.length = 27 := by decide
    omega
  have h2 : li < LOWERCASE_CHARS.data.length := by
    have : LOWERCASE_CHARS.data.length = 26 := by decide
    omega
  have h3 : ui < UPPERCASE_CHARS.data.length := by
    have : UPPERCASE_CHARS.data.length = 26 := by decide
    omega
  have h4 : ni < NUMBERS.data.length := by
    have : NUMBERS.data.length = 10 := by decide
    omega
  obtain ⟨filler, hcs, hflen2, hfmem⟩ := pick_chars_ok fill hfill
  unfold generate_random_password
  rw [List.get?_eq_get h1, List.get?_eq_get h2, List.get?_eq_get h3,
    List.get?_eq_get h4, hcs]
  refine ⟨_, rfl, ?_⟩
  have hperm2 := hperm ([SPECIAL_CHARS.data.get ⟨si, h1⟩, LOWERCASE_CHARS.data.get ⟨li, h2⟩,
    UPPERCASE_CHARS.data.get ⟨ui, h3⟩, NUMBERS.data.get ⟨ni, h4⟩] ++ filler)
  have hlen20 : (shuffle ([SPECIAL_CHARS.data.get ⟨si, h1⟩, LOWERCASE_CHARS.data.get ⟨li, h2⟩,
      UPPERCASE_CHARS.data.get ⟨ui, h3⟩, NUMBERS.data.get ⟨ni, h4⟩] ++ filler)).length = 20 := by
    rw [hperm2.length_eq]
    simp [hflen2, hflen]
  unfold is_password_valid
  have hsize := length_le_utf8ByteSize (shuffle ([SPECIAL_CHARS.data.get ⟨si, h1⟩,
    LOWERCASE_CHARS.data.get ⟨li, h2⟩, UPPERCASE_CHARS.data.get ⟨ui, h3⟩,
    NUMBERS.data.get ⟨ni, h4⟩] ++ filler))
  rw [if_neg (by omega)]
  simp only [Bool.and_eq_true, List.any_eq_true]
  refine ⟨⟨⟨⟨LOWERCASE_CHARS.data.get ⟨li, h2⟩, ?_, ?_⟩,
    ⟨UPPERCASE_CHARS.data.get ⟨ui, h3⟩, ?_, ?_⟩⟩,
    ⟨NUMBERS.data.get ⟨ni, h4⟩, ?_, ?_⟩⟩,
    ⟨SPECIAL_CHARS.data.get ⟨si, h1⟩, ?_, ?_⟩⟩
  · exact hperm2.mem_iff.mpr (by simp)
  · exact contains_iff_mem.mpr (List.get_mem _ _ _)
  · exact hperm2.mem_iff.mpr (by simp)
  · exact contains_iff_mem.mpr (List.get_mem _ _ _)
  · exact hperm2.mem_iff.mpr (by simp)
  · exact contains_iff_mem.mpr (List.get_mem _ _ _)
  · exact hperm2.mem_iff.mpr (by simp)
  · exact contains_iff_mem.mpr (List.get_mem _ _ _)

/-- Closed instance of C8: concrete in-range draws with the identity shuffle
produce a valid password. -/
theorem generate_random_password_valid_witness :
    ∃ s, generate_random_password 0 0 0 0 (List.replicate 16 0) (fun l => l) = some s ∧
      is_password_valid s = true :=
  generate_random_password_valid 0 0 0 0 (List.replicate 16 0) (fun l => l)
    (by decide) (by decide) (by decide) (by decide) (by decide) (by decide)
    (fun l => List.Perm.refl l)

/-! ## Helper lemmas: record store -/

theorem position_eq_none_iff (p : Account → Bool) : ∀ l : List Account,
    position p l = none ↔ ∀ a ∈ l, p a = false := by
  intro l
  induction l with
  | nil => simp [position]
  | cons x rest ih =>
    by_cases hx : p x = true
    · simp [position, hx]
    · have hx' : p x = false := by
        revert hx
        cases p x <;> simp
      simp [position, hx', ih]

theorem position_some_facts (p : Account → Bool) : ∀ (l : List Account) (i : Nat),
    position p l = some i → i < l.length ∧ ∃ a ∈ l, p a = true := by
  intro l
  induction l with
  | nil =>
    intro i h
    simp [position] at h
  | cons x rest ih =>
    intro i h
    by_cases hx : p x = true
    · simp [position, hx] at h
      have hi0 : i = 0 := by omega
      subst hi0
      exact ⟨by simp, x, by simp, hx⟩
    · have hx' : p x = false := by
        revert hx
        cases p x <;> simp
      simp only [position, hx', Bool.false_eq_true, if_false, Option.map_eq_some'] at h
      obtain ⟨j, hj, hij⟩ := h
      obtain ⟨hlt, a, hm, hpa⟩ := ih j hj
      exact ⟨by simp; omega, a, by simp [hm], hpa⟩

theorem position_append_first (p : Account → Bool) (a : Account) (post : List Account)
    (ha : p a = true) : ∀ pre : List Account, (∀ x ∈ pre, p x = false) →
    position p (pre ++ a :: post) = some pre.length := by
  intro pre
  induction pre with
  | nil =>
    intro _
    simp [position, ha]
  | cons x rest ih =>
    intro hpre
    have hx : p x = false := hpre x (by simp)
    have hrest := ih (fun y hy => hpre y (by simp [hy]))
    simp [position, hx, hrest]

theorem eraseIdx_append_first (a : Account) (post : List Account) :
    ∀ pre : List Account, (pre ++ a :: post).eraseIdx pre.length = pre ++ post := by
  intro pre
  induction pre with
  | nil => simp [List.eraseIdx]
  | cons x rest ih => simp [List.eraseIdx, ih]

theorem find?_append_first (p : Account → Bool) (a : Account) (post : List Account)
    (ha : p a = true) : ∀ pre : List Account, (∀ x ∈ pre, p x = false) →
    List.find? p (pre ++ a :: post) = some a := by
  intro pre
  induction pre with
  | nil =>
    intro _
    simp [List.find?, ha]
  | cons x rest ih =>
    intro hpre
    have hx : p x = false := hpre x (by simp)
    have hrest := ih (fun y hy => hpre y (by simp [hy]))
    simp [List.find?, hx, hrest]

theorem mutate_first_append (f : Account → Account) (id : String) (a : Account)
    (post : List Account) (ha : (a.id == id) = true) :
    ∀ pre : List Account, (∀ x ∈ pre, (x.id == id) = false) →
    mutate_first f id (pre ++ a :: post) = pre ++ f a :: post := by
  intro pre
  induction pre with
  | nil =>
    intro _
    simp [mutate_first, ha]
  | cons x rest ih =>
    intro hpre
    have hx : (x.id == id) = false := hpre x (by simp)
    have hrest := ih (fun y hy => hpre y (by simp [hy]))
    simp [mutate_first, hx, hrest]

theorem find?_eraseIdx_of_count (p : Account → Bool) : ∀ (l : List Account) (i : Nat),
    position p l = some i → l.countP p ≤ 1 → List.find? p (l.eraseIdx i) = none := by
  intro l
  induction l with
  | nil =>
    intro i h
    simp [position] at h
  | cons x rest ih =>
    intro i h hcount
    by_cases hx : p x = true
    · simp [position, hx] at h
      subst h
      have hc : rest.countP p = 0 := by
        rw [List.countP_cons_of_pos p rest hx] at hcount
        omega
      have hnone : ∀ b ∈ rest, ¬ p b = true := List.countP_eq_zero.mp hc
      show List.find? p rest = none
      exact List.find?_eq_none.mpr hnone
    · have hx' : p x = false := by
        revert hx
        cases p x <;> simp
      simp only [position, hx', Bool.false_eq_true, if_false, Option.map_eq_some'] at h
      obtain ⟨j, hj, hij⟩ := h
      subst hij
      have hcount' : rest.countP p ≤ 1 := by
        rw [List.countP_cons_of_neg p rest (by simp [hx'])] at hcount
        exact hcount
      show List.find? p (x :: rest.eraseIdx j) = none
      rw [List.find?_cons_of_neg _ (by simp [hx'])]
      exact ih j hj hcount'

/-- Claim C9: `remove_account` returns `true` exactly when an account with the
given id exists; on a miss it returns `false` and the store is unchanged
(same accounts, same order, same length); on a hit it shrinks the store by
exactly one, and if no other account shared the id, a subsequent lookup of
that id returns `none`. -/
theorem remove_account_spec (db : Database) (id : String) :
    ((db.remove_account id).1 = true ↔ ∃ a ∈ db.accounts, a.id = id) ∧
    ((db.remove_account id).1 = false → (db.remove_account id).2 = db) ∧
    ((db.remove_account id).1 = true →
      db.accounts.countP (fun a => a.id == id) ≤ 1 →
      ((db.remove_account id).2).get_account_by_id id = none) ∧
    ((db.remove_account id).1 = true →
      ((db.remove_account id).2).accounts.length + 1 = db.accounts.length) ∧
    ((db.remove_account id).1 = false →
      ((db.remove_account id).2).accounts.length = db.accounts.length) := by
  rcases hpos : position (fun a => a.id == id) db.accounts with _ | i
  · have hall := (position_eq_none_iff _ db.accounts).mp hpos
    unfold Database.remove_account
    rw [hpos]
    refine ⟨?_, fun _ => rfl, ?_, ?_, fun _ => rfl⟩
    · constructor
      · intro h
        exact absurd h (by simp)
      · rintro ⟨a, hm, heq⟩
        have := hall a hm
        rw [beq_eq_false_iff_ne] at this
        exact absurd heq this
    · intro h
      exact absurd h (by simp)
    · intro h
      exact absurd h (by simp)
  · obtain ⟨hlt, a, hm, hpa⟩ := position_some_facts _ db.accounts i hpos
    unfold Database.remove_account
    rw [hpos]
    refine ⟨?_, ?_, ?_, ?_, ?_⟩
    · exact ⟨fun _ => ⟨a, hm, beq_iff_eq.mp hpa⟩, fun _ => rfl⟩
    · intro h
      exact absurd h (by simp)
    · intro _ hcount
      show Database.get_account_by_id ⟨db.accounts.eraseIdx i⟩ id = none
      unfold Database.get_account_by_id
      exact find?_eraseIdx_of_count _ db.accounts i hpos hcount
    · intro _
      show (db.accounts.eraseIdx i).length + 1 = db.accounts.length
      rw [List.length_eraseIdx]
      rw [if_pos hlt]
      omega
    · intro h
      exact absurd h (by simp)

/-- Closed instance of C9: removing the only account succeeds and the
subsequent lookup misses. -/
theorem remove_account_spec_witness :
    ((Database.remove_account ⟨[⟨"x", "u", none, "p"⟩]⟩ "x").1 = true) ∧
    ((Database.remove_account ⟨[⟨"x", "u", none, "p"⟩]⟩ "x").2).get_account_by_id "x" =
      none :=
  ⟨(remove_account_spec ⟨[⟨"x", "u", none, "p"⟩]⟩ "x").1.mpr
      ⟨⟨"x", "u", none, "p"⟩, by simp, rfl⟩,
   (remove_account_spec ⟨[⟨"x", "u", none, "p"⟩]⟩ "x").2.2.1
      ((remove_account_spec ⟨[⟨"x", "u", none, "p"⟩]⟩ "x").1.mpr
        ⟨⟨"x", "u", none, "p"⟩, by simp, rfl⟩)
      (by decide)⟩

/-- Claim C10: with duplicate ids possible (id generation never checks
existing ids), `get_account_by_id`, `get_account_by_id_mut` and
`remove_account` all act on the first matching account in insertion order, and
`remove_account` removes exactly that one account, leaving every later
duplicate in the store. -/
theorem first_match_semantics (pre post : List Account) (a : Account) (id : String)
    (f : Account → Account)
    (hpre : ∀ x ∈ pre, x.id ≠ id) (ha : a.id = id) :
    (⟨pre ++ a :: post⟩ : Database).get_account_by_id id = some a ∧
    (⟨pre ++ a :: post⟩ : Database).get_account_by_id_mut id f = ⟨pre ++ f a :: post⟩ ∧
    (⟨pre ++ a :: post⟩ : Database).remove_account id = (true, ⟨pre ++ post⟩) ∧
    ∀ b ∈ post, b ∈ ((⟨pre ++ a :: post⟩ : Database).remove_account id).2.accounts := by
  have hpre' : ∀ x ∈ pre, (x.id == id) = false :=
    fun x hx => beq_eq_false_iff_ne.mpr (hpre x hx)
  have ha' : (a.id == id) = true := beq_iff_eq.mpr ha
  have hremove : (⟨pre ++ a :: post⟩ : Database).remove_account id = (true, ⟨pre ++ post⟩) := by
    unfold Database.remove_account
    rw [show (⟨pre ++ a :: post⟩ : Database).accounts = pre ++ a :: post from rfl,
      position_append_first _ a post ha' pre hpre']
    show (true, (⟨(pre ++ a :: post).eraseIdx pre.length⟩ : Database)) = (true, ⟨pre ++ post⟩)
    rw [eraseIdx_append_first a post pre]
  refine ⟨?_, ?_, hremove, ?_⟩
  · exact find?_append_first _ a post ha' pre hpre'
  · unfold Database.get_account_by_id_mut
    rw [show (⟨pre ++ a :: post⟩ : Database).accounts = pre ++ a :: post from rfl,
      mutate_first_append f id a post ha' pre hpre']
  · intro b hb
    rw [hremove]
    simp [hb]

/-- Closed instance of C10: with two accounts sharing id "dup", lookup returns
the first, mutation-through-find rewrites only the first, and removal deletes
only the first, keeping the later duplicate. -/
theorem first_match_semantics_witness :
    (⟨[⟨"other", "u", none, "q"⟩, ⟨"dup", "first", none, "p1"⟩,
        ⟨"dup", "second", some "d", "p2"⟩]⟩ : Database).get_account_by_id "dup" =
      some ⟨"dup", "first", none, "p1"⟩ ∧
    (⟨[⟨"other", "u", none, "q"⟩, ⟨"dup", "first", none, "p1"⟩,
        ⟨"dup", "second", some "d", "p2"⟩]⟩ : Database).get_account_by_id_mut "dup"
        (fun acc => ⟨acc.id, acc.username_or_email, acc.description, "npw"⟩) =
      ⟨[⟨"other", "u", none, "q"⟩, ⟨"dup", "first", none, "npw"⟩,
        ⟨"dup", "second", some "d", "p2"⟩]⟩ ∧
    (⟨[⟨"other", "u", none, "q"⟩, ⟨"dup", "first", none, "p1"⟩,
        ⟨"dup", "second", some "d", "p2"⟩]⟩ : Database).remove_account "dup" =
      (true, ⟨[⟨"other", "u", none, "q"⟩, ⟨"dup", "second", some "d", "p2"⟩]⟩) ∧
    ∀ b ∈ [(⟨"dup", "second", some "d", "p2"⟩ : Account)],
      b ∈ ((⟨[⟨"other", "u", none, "q"⟩, ⟨"dup", "first", none, "p1"⟩,
        ⟨"dup", "second", some "d", "p2"⟩]⟩ : Database).remove_account "dup").2.accounts :=
  first_match_semantics [⟨"other", "u", none, "q"⟩] [⟨"dup", "second", some "d", "p2"⟩]
    ⟨"dup", "first", none, "p1"⟩ "dup"
    (fun acc => ⟨acc.id, acc.username_or_email, acc.description, "npw"⟩)
    (by decide) rfl

end Ferropass
